import Mathlib

/-!
Verification of the convolution operator of the WebGL backend
(`src/lib/backends/webgl/ops/conv.ts`) and of the `Flatten` operator base
(`src/lib/ops/flatten.ts`).

Shapes, strides, pads and dilations are JavaScript numbers holding integers;
they are modelled as `ℕ` (or `ℤ` where the code can produce negative
intermediate values).  Float32 buffers are modelled as `List ℚ`: the claims
under study are about positions, lengths and exact (rational) sums, never
about rounding.  JavaScript out-of-range indexing does not occur on the
executions covered by the theorems, so array reads are modelled with
`List.getD _ _ 0`.
-/

namespace OnnxJs

namespace WebGLConv

/-- `WebGLConv.calcOutputShape` from `conv.ts`.  `Math.floor` of the real
division `(v - dilatedKernelShape[i] + strides[i]) / strides[i]` is floor
division, i.e. `Int.fdiv`. -/
def calcOutputShape (inputShape kernelShape dilations adjustPads strides : List ℤ) :
    List ℤ :=
  let batchSize := inputShape.getD 0 0
  let inputSpatialShape := inputShape.drop 2
  let spatialRank := inputSpatialShape.length
  let outChannels := kernelShape.getD 0 0
  let kernelSpatialShape := kernelShape.drop 2
  let dilatedKernelShape :=
    kernelSpatialShape.mapIdx fun i v => v + (v - 1) * (dilations.getD i 0 - 1)
  let inputSpatialShapeWithPad :=
    inputSpatialShape.mapIdx fun i v =>
      v + adjustPads.getD i 0 + adjustPads.getD (i + spatialRank) 0
  let outputSpatialShape :=
    inputSpatialShapeWithPad.mapIdx fun i v =>
      Int.fdiv (v - dilatedKernelShape.getD i 0 + strides.getD i 0) (strides.getD i 0)
  [batchSize, outChannels] ++ outputSpatialShape

/-- `WebGLConv.calcSharedDimReadSize` from `conv.ts`: returns the preferred
chunk size 16 when it divides `sharedDim` evenly and `sharedDim` is at least
16, otherwise the full `sharedDim`. -/
def calcSharedDimReadSize (sharedDim : ℕ) : ℕ :=
  let preferredBatchSize := 16
  if sharedDim < preferredBatchSize ∨ sharedDim % preferredBatchSize ≠ 0 then
    sharedDim
  else
    preferredBatchSize

/-- `WebGLConv.calcIm2ColDims` from `conv.ts`: the logical shape of the
im2col texture.  The last entry models
`Math.ceil(inputShape[1] * kernelShape[2] * kernelShape[3] / channels)`. -/
def calcIm2ColDims (inputShape kernelShape outputShape : List ℕ) (channels : ℕ) : List ℕ :=
  [outputShape.getD 0 0, outputShape.getD 2 0, outputShape.getD 3 0,
   (inputShape.getD 1 0 * kernelShape.getD 2 0 * kernelShape.getD 3 0 + channels - 1) / channels]

/-- One draw call of the Pass-2 fragment program
(`createDotProductProgramInfo`, shader body) at uniform
`sharedDimOffset = k`: the accumulator is seeded with
`sharedDimOffset == 0 ? initValue : 0.0` (where `initValue` is the bias
value `_B(b)` when a `B` tensor is present and `0.0` otherwise) and then
accumulates `readSize` products starting at offset `k`. -/
def chunkResult (bias : ℚ) (im2col kernel : ℕ → ℚ) (readSize k : ℕ) : ℚ :=
  (if k = 0 then bias else 0) +
    ∑ i ∈ Finset.range readSize, im2col (k + i) * kernel (k + i)

/-- The offsets taken by the draw hook of `createRunDatas`:
`for (let k = 0; k < sharedDim; k += sharedDimReadSize) ... draw()`. -/
def drawLoopOffsets (sharedDim readSize : ℕ) : List ℕ :=
  (List.range ((sharedDim + readSize - 1) / readSize)).map (· * readSize)

/-- Pass 2 with additive blending (`FUNC_ADD`, `ONE`/`ONE`): every draw adds
its chunk result to the output texel, starting from a cleared target. -/
def blendAccumulate (bias : ℚ) (im2col kernel : ℕ → ℚ) (sharedDim readSize : ℕ) : ℚ :=
  (drawLoopOffsets sharedDim readSize).foldl
    (fun acc k => acc + chunkResult bias im2col kernel readSize k) 0

/-- Result of `WebGLConv.prepKernelForDotProduct`.  `isInput` records
whether the function returned its argument buffer itself (the early-return
branch) or allocated a fresh `Float32Array`. -/
structure PrepResult where
  isInput : Bool
  data : List ℚ
  deriving DecidableEq

/-- The body of the repacking loop of `prepKernelForDotProduct`: the state
is `(rowbuf, buffer-so-far)`.  `rowbuf.set(slice, 0)` overwrites the first
`slice.length` entries of `rowbuf` and keeps the rest; `buffer.set(rowbuf,
f * newRowSize)` appends the row, since the writes tile the output buffer
exactly. -/
def prepStep (kernel : List ℚ) (oldRowSize : ℕ) (acc : List ℚ × List ℚ) (f : ℕ) :
    List ℚ × List ℚ :=
  let slice := (kernel.drop (f * oldRowSize)).take oldRowSize
  let rowbuf := slice ++ acc.1.drop slice.length
  (rowbuf, acc.2 ++ rowbuf)

/-- `WebGLConv.prepKernelForDotProduct` from `conv.ts`.
`ShapeUtil.computeStrides(shape)[0]` is `shape[1] * shape[2] * shape[3]`,
i.e. `oldRowSize`; `Math.ceil(oldRowSize / channels)` is
`(oldRowSize + channels - 1) / channels`.  A JavaScript
`rowbuf.set(slice, 0)` overwrites the first `slice.length` entries of
`rowbuf` and keeps the rest; the consecutive `buffer.set(rowbuf, f *
newRowSize)` writes tile the output buffer exactly, so the output is the
concatenation of the successive `rowbuf` contents. -/
def prepKernelForDotProduct (shape : List ℕ) (group channels : ℕ) (kernel : List ℚ) :
    PrepResult :=
  if group = 1 ∧ (channels = 1 ∨ (shape.getD 2 0 * shape.getD 3 0) % channels = 0) then
    ⟨true, kernel⟩
  else
    let oldRowSize := shape.getD 1 0 * shape.getD 2 0 * shape.getD 3 0
    let newRowSize := ((oldRowSize + channels - 1) / channels) * channels
    ⟨false,
      ((List.range (shape.getD 0 0)).foldl (prepStep kernel oldRowSize)
        (List.replicate newRowSize 0, [])).2⟩

/-- The shape constants substituted into the Pass-1 (im2col) shader source
by `createIm2ColProgramInfo`. -/
structure Im2ColParams where
  XC : ℕ
  XH : ℕ
  XW : ℕ
  KH : ℕ
  KW : ℕ
  dilationH : ℕ
  dilationW : ℕ
  strideH : ℕ
  strideW : ℕ
  padH : ℕ
  padW : ℕ

/-- The texture sample `_X(x)` of the im2col shader.  The input texture
holds the elements of the logical tensor `[batch, XC, XH, XW]`; the result
is the out-of-range marker `none` when the sampled logical coordinate lies
outside the tensor extent. -/
def texFetchX (P : Im2ColParams) (X : ℕ → ℕ → ℕ → ℕ → ℚ) (b : ℕ) (c h w : ℤ) :
    Option ℚ :=
  if 0 ≤ c ∧ c < (P.XC : ℤ) ∧ 0 ≤ h ∧ h < (P.XH : ℤ) ∧ 0 ≤ w ∧ w < (P.XW : ℤ) then
    some (X b c.toNat h.toNat w.toNat)
  else
    none

/-- Channel `i` of the `vec4` computed by the Pass-1 shader's `process`
function at output index `(b, outH, outW, patchGroup)`: the loop body at
iteration `i`, with `patch = indices[3] * outputChannels + i`.  GLSL `int`
division truncates; `patch` is non-negative, so the decomposition is
natural-number division, while the spatial coordinates `xh2`, `xw2` can be
negative and stay in `ℤ`. -/
def im2colChannel (P : Im2ColParams) (X : ℕ → ℕ → ℕ → ℕ → ℚ)
    (b outH outW patchGroup i : ℕ) : Option ℚ :=
  let oh : ℤ := (outH : ℤ) * (P.strideH : ℤ) - (P.padH : ℤ)
  let ow : ℤ := (outW : ℤ) * (P.strideW : ℤ) - (P.padW : ℤ)
  let patch : ℕ := patchGroup * 4 + i
  if patch < P.XC * (P.KH * P.KW) then
    let patchC := patch / (P.KH * P.KW)
    let patchH := (patch - patchC * (P.KH * P.KW)) / P.KW
    let patchW := (patch - patchC * (P.KH * P.KW)) - patchH * P.KW
    let xh2 : ℤ := oh + (patchH : ℤ) * (P.dilationH : ℤ)
    let xw2 : ℤ := ow + (patchW : ℤ) * (P.dilationW : ℤ)
    if 0 ≤ xh2 ∧ xh2 < (P.XH : ℤ) ∧ 0 ≤ xw2 ∧ xw2 < (P.XW : ℤ) then
      texFetchX P X b (patchC : ℤ) xh2 xw2
    else
      some 0
  else
    some 0

end WebGLConv

/-- One call of `WebGLConv.run` as far as the artifact cache is concerned:
if `this.artifacts` is unset, every program info is built and the artifacts
are stored on the instance; otherwise the stored artifacts are reused.  The
second component counts the `programManager.build` calls the run performs. -/
def convRunStep {ProgramInfo Artifact : Type} (build : ProgramInfo → Artifact)
    (programInfos : List ProgramInfo) (artifacts : Option (List Artifact)) :
    Option (List Artifact) × ℕ :=
  match artifacts with
  | none => (some (programInfos.map build), programInfos.length)
  | some arts => (some arts, 0)

/-- The artifact-cache state after `n` calls of `run` on a fresh
`WebGLConv` instance (whose `artifacts` field starts unset), paired with
the number of `build` calls performed by the `n`-th run (0 when no run has
happened yet). -/
def convRunIter {ProgramInfo Artifact : Type} (build : ProgramInfo → Artifact)
    (programInfos : List ProgramInfo) : ℕ → Option (List Artifact) × ℕ
  | 0 => (none, 0)
  | n + 1 => convRunStep build programInfos (convRunIter build programInfos n).1

/-- The slice of the `Tensor` interface that `Flatten.checkInputs` reads:
the dimension list and the element type tag. -/
structure Tensor where
  dims : List ℕ
  type : String
  deriving DecidableEq

namespace Flatten

/-- Placeholder tensor used to model JavaScript indexing `inputs[0]`; it is
never reached on the paths the theorems describe. -/
def defaultTensor : Tensor := ⟨[], ""⟩

/-- `Flatten.checkInputTypes` from `flatten.ts`. -/
def checkInputTypes (inputs : List Tensor) : Bool :=
  if (inputs.getD 0 defaultTensor).type = "string" then false else true

/-- `Flatten.checkInputs` from `flatten.ts`; `axis` is the configured
attribute (an arbitrary integer), `inputs` is `none` when the argument is
absent (`!inputs`). -/
def checkInputs (axis : ℤ) (inputs : Option (List Tensor)) : Bool :=
  match inputs with
  | none => false
  | some ins =>
    if ins.length ≠ 1 then false
    else if (ins.getD 0 defaultTensor).dims.length = 0 then false
    else if axis < 0 ∨ ((ins.getD 0 defaultTensor).dims.length : ℤ) < axis then false
    else checkInputTypes ins

end Flatten

end OnnxJs

namespace OnnxJs

/-- Helper: for natural `a`, `c`, the JavaScript expression
`Math.ceil(a / c)` (real division, then ceiling) equals the natural-number
formula `(a + c - 1) / c` used throughout the Lean model. -/
theorem ceil_div_nat (a c : ℕ) : (⌈(a : ℚ) / (c : ℚ)⌉₊ : ℕ) = (a + c - 1) / c := by
  rcases Nat.eq_zero_or_pos c with hc | hc
  · subst hc
    simp
  rcases Nat.eq_zero_or_pos a with ha | ha
  · subst ha
    simp only [Nat.cast_zero, zero_div, Nat.ceil_zero]
    exact (Nat.div_eq_of_lt (by omega)).symm
  have hcq : (0 : ℚ) < (c : ℚ) := by exact_mod_cast hc
  have hdm := Nat.div_add_mod (a + c - 1) c
  have hmlt : (a + c - 1) % c < c := Nat.mod_lt _ hc
  generalize hn : (a + c - 1) / c = n at hdm ⊢
  have hn1 : 1 ≤ n := by
    rcases Nat.eq_zero_or_pos n with h0 | h0
    · subst h0
      omega
    · exact h0
  have hle : a ≤ c * n := by omega
  have hsucc : c * (n - 1) + c = c * n := by
    have h1 : n - 1 + 1 = n := by omega
    calc c * (n - 1) + c = c * (n - 1 + 1) := by rw [Nat.mul_succ]
    _ = c * n := by rw [h1]
  have hlt : c * (n - 1) < a := by omega
  rw [Nat.ceil_eq_iff (by omega : n ≠ 0)]
  constructor
  · rw [lt_div_iff₀ hcq]
    have h2 : (n - 1) * c < a := by rw [Nat.mul_comm]; exact hlt
    exact_mod_cast h2
  · rw [div_le_iff₀ hcq]
    have h2 : a ≤ n * c := by rw [Nat.mul_comm]; exact hle
    exact_mod_cast h2

/-- C1: on an input shape `[batch, inC] ++ S`, kernel shape `[outC, kC] ++ K`
with `K` of spatial rank, `calcOutputShape` returns `[batch, outC] ++ O`
where `O[i] = floor((S[i] + P[i] + P[i+rank] - (K[i] + (K[i]-1)*(D[i]-1)) +
T[i]) / T[i])`, the output channel count being `kernelShape[0]`. -/
theorem calcOutputShape_spec (batch inC outC kC : ℤ) (S K D P T : List ℤ)
    (hK : K.length = S.length) :
    WebGLConv.calcOutputShape ([batch, inC] ++ S) ([outC, kC] ++ K) D P T =
      [batch, outC] ++ (List.range S.length).map fun i =>
        Int.fdiv
          ((S.getD i 0 + P.getD i 0 + P.getD (i + S.length) 0)
            - (K.getD i 0 + (K.getD i 0 - 1) * (D.getD i 0 - 1)) + T.getD i 0)
          (T.getD i 0) := by
  unfold WebGLConv.calcOutputShape
  simp only [List.cons_append, List.nil_append, List.getD_cons_zero, List.drop_succ_cons,
    List.drop_zero, List.length_mapIdx]
  apply congrArg (List.cons batch)
  apply congrArg (List.cons outC)
  apply List.ext_getElem?
  intro i
  rcases Nat.lt_or_ge i S.length with hi | hi
  · have hiK : i < K.length := by omega
    have hS : S[i]? = some (S.getD i 0) := by
      rw [List.getElem?_eq_getElem hi, List.getD_eq_getElem S 0 hi]
    have hKe : K[i]? = some (K.getD i 0) := by
      rw [List.getElem?_eq_getElem hiK, List.getD_eq_getElem K 0 hiK]
    have hR : (List.range S.length)[i]? = some i := List.getElem?_range hi
    have ekey : (K.mapIdx fun j v => v + (v - 1) * (D.getD j 0 - 1)).getD i 0 =
        K.getD i 0 + (K.getD i 0 - 1) * (D.getD i 0 - 1) := by
      rw [List.getD_eq_getElem?_getD, List.getElem?_mapIdx, hKe]
      simp
    simp only [List.getElem?_mapIdx, List.getElem?_map, hS, hR, Option.map_some', ekey]
  · have hS : S[i]? = none := List.getElem?_eq_none (by omega)
    have hR : (List.range S.length)[i]? = none :=
      List.getElem?_eq_none (by simpa using hi)
    simp only [List.getElem?_mapIdx, List.getElem?_map, hS, hR, Option.map_none']

/-- Witness for C1: input `1×1×4×4`, kernel `1×1×3×3`, unit strides and
dilations, zero pads; the output shape is `1×1×2×2`. -/
theorem calcOutputShape_spec_witness :
    ([(3 : ℤ), 3] : List ℤ).length = ([(4 : ℤ), 4] : List ℤ).length ∧
    WebGLConv.calcOutputShape ([1, 1] ++ [4, 4]) ([1, 1] ++ [3, 3]) [1, 1] [0, 0, 0, 0] [1, 1] =
      [1, 1] ++ (List.range ([(4 : ℤ), 4] : List ℤ).length).map fun i =>
        Int.fdiv
          ((([(4 : ℤ), 4] : List ℤ).getD i 0 + ([(0 : ℤ), 0, 0, 0] : List ℤ).getD i 0 +
              ([(0 : ℤ), 0, 0, 0] : List ℤ).getD (i + ([(4 : ℤ), 4] : List ℤ).length) 0)
            - (([(3 : ℤ), 3] : List ℤ).getD i 0 + (([(3 : ℤ), 3] : List ℤ).getD i 0 - 1) *
                (([(1 : ℤ), 1] : List ℤ).getD i 0 - 1)) + ([(1 : ℤ), 1] : List ℤ).getD i 0)
          (([(1 : ℤ), 1] : List ℤ).getD i 0) :=
  ⟨by decide, calcOutputShape_spec 1 1 1 1 [4, 4] [3, 3] [1, 1] [0, 0, 0, 0] [1, 1] (by decide)⟩

/-- C6: for every sharedDim ≥ 1, `calcSharedDimReadSize` returns 16 exactly
when sharedDim ≥ 16 and sharedDim is a multiple of 16, and sharedDim itself
otherwise; in both cases the returned read size divides sharedDim. -/
theorem calcSharedDimReadSize_spec (sharedDim : ℕ) (h : 1 ≤ sharedDim) :
    WebGLConv.calcSharedDimReadSize sharedDim =
      (if 16 ≤ sharedDim ∧ sharedDim % 16 = 0 then 16 else sharedDim) ∧
    WebGLConv.calcSharedDimReadSize sharedDim ∣ sharedDim := by
  clear h
  unfold WebGLConv.calcSharedDimReadSize
  by_cases h16 : sharedDim < 16 ∨ sharedDim % 16 ≠ 0
  · rw [if_pos h16, if_neg (by omega)]
    exact ⟨rfl, dvd_refl _⟩
  · rw [if_neg h16, if_pos (by omega)]
    exact ⟨rfl, Nat.dvd_of_mod_eq_zero (by omega)⟩

/-- Witness for C6 at sharedDim = 32: the read size is 16 and divides 32. -/
theorem calcSharedDimReadSize_spec_witness :
    1 ≤ 32 ∧
    (WebGLConv.calcSharedDimReadSize 32 =
        (if 16 ≤ 32 ∧ 32 % 16 = 0 then 16 else 32) ∧
      WebGLConv.calcSharedDimReadSize 32 ∣ 32) :=
  ⟨by decide, calcSharedDimReadSize_spec 32 (by decide)⟩

/-- Helper: folding additive blending over a list of chunk offsets adds the
chunk results to the initial framebuffer contents. -/
theorem foldl_blend_eq_sum (g : ℕ → ℚ) (rs : ℕ) (N : ℕ) :
    ∀ a : ℚ, ((List.range N).map (· * rs)).foldl (fun acc k => acc + g k) a =
      a + ∑ c ∈ Finset.range N, g (c * rs) := by
  induction N with
  | zero => intro a; simp
  | succ m ih =>
    intro a
    rw [List.range_succ, List.map_append, List.foldl_append, ih]
    simp [Finset.sum_range_succ, add_assoc]

/-- Helper: re-indexing a double sum over `m` chunks of `rs` consecutive
terms as a single sum over `rs * m` terms. -/
theorem sum_chunks (f : ℕ → ℚ) (rs : ℕ) (m : ℕ) :
    ∑ c ∈ Finset.range m, ∑ i ∈ Finset.range rs, f (c * rs + i) =
      ∑ j ∈ Finset.range (rs * m), f j := by
  induction m with
  | zero => simp
  | succ k ih =>
    rw [Finset.sum_range_succ, ih, Nat.mul_succ, Finset.sum_range_add]
    congr 1
    apply Finset.sum_congr rfl
    intro i _
    congr 1
    ring

/-- C2: for sharedDim ≥ 1 and any chunk size that divides sharedDim, the
blend-accumulated chunked reduction of Pass 2 — each chunk seeded with the
bias exactly when its offset is 0 — equals the single unchunked result
`bias + Σ im2col[i]·kernel[i]` over exact rational arithmetic (a missing
bias tensor is the instance `bias = 0`). -/
theorem blendAccumulate_eq_unchunked (bias : ℚ) (im2col kernel : ℕ → ℚ)
    (sharedDim readSize : ℕ) (h1 : 1 ≤ sharedDim) (hdvd : readSize ∣ sharedDim) :
    WebGLConv.blendAccumulate bias im2col kernel sharedDim readSize =
      bias + ∑ i ∈ Finset.range sharedDim, im2col i * kernel i := by
  obtain ⟨m, hm⟩ := hdvd
  have hrs : 1 ≤ readSize := by
    rcases Nat.eq_zero_or_pos readSize with h0 | h0
    · subst h0
      simp at hm
      omega
    · exact h0
  have hm1 : 1 ≤ m := by
    rcases Nat.eq_zero_or_pos m with h0 | h0
    · subst h0
      simp at hm
      omega
    · exact h0
  have hN : (sharedDim + readSize - 1) / readSize = m := by
    subst hm
    have he : readSize * m + readSize - 1 = (readSize - 1) + readSize * m := by omega
    rw [he, Nat.add_mul_div_left _ _ hrs, Nat.div_eq_of_lt (by omega)]
    omega
  unfold WebGLConv.blendAccumulate WebGLConv.drawLoopOffsets
  rw [hN, foldl_blend_eq_sum]
  unfold WebGLConv.chunkResult
  rw [Finset.sum_add_distrib]
  have hseed : ∑ c ∈ Finset.range m, (if c * readSize = 0 then bias else 0) = bias := by
    have he : ∀ c, (if c * readSize = 0 then bias else 0) = if c = 0 then bias else 0 := by
      intro c
      by_cases hc : c = 0
      · subst hc
        simp
      · rw [if_neg (by positivity), if_neg hc]
    rw [Finset.sum_congr rfl fun c _ => he c,
      Finset.sum_ite_eq' (Finset.range m) 0 fun _ => bias,
      if_pos (Finset.mem_range.mpr (by omega))]
  rw [hseed, sum_chunks (fun j => im2col j * kernel j) readSize m, hm]
  ring

/-- Witness for C2 at sharedDim = 32, readSize = 16, bias 5,
`im2col i = i`, `kernel i = 1`. -/
theorem blendAccumulate_eq_unchunked_witness :
    1 ≤ 32 ∧ 16 ∣ 32 ∧
    WebGLConv.blendAccumulate 5 (fun i => (i : ℚ)) (fun _ => 1) 32 16 =
      5 + ∑ i ∈ Finset.range 32, (i : ℚ) * 1 :=
  ⟨by decide, by decide,
    blendAccumulate_eq_unchunked 5 (fun i => (i : ℚ)) (fun _ => 1) 32 16 (by decide)
      (by decide)⟩

/-- C8: on a fresh operator instance the first `run` call builds one
artifact per program info and stores them; every later `run` call performs
zero builds and reuses exactly the artifacts stored by the first call. -/
theorem convRun_builds_at_most_once {ProgramInfo Artifact : Type}
    (build : ProgramInfo → Artifact) (programInfos : List ProgramInfo) (n : ℕ)
    (h : 1 ≤ n) :
    convRunIter build programInfos n =
      (some (programInfos.map build), if n = 1 then programInfos.length else 0) := by
  induction n with
  | zero => omega
  | succ m ih =>
    rcases Nat.eq_zero_or_pos m with h0 | hm
    · subst h0
      simp [convRunIter, convRunStep]
    · rw [convRunIter, ih hm]
      simp only [convRunStep]
      rw [if_neg (by omega)]

/-- Witness for C8: two runs with two program infos; the second run's state
is the artifacts built by the first and it performs zero builds. -/
theorem convRun_builds_at_most_once_witness :
    1 ≤ 2 ∧
    convRunIter Nat.succ [1, 2] 2 =
      (some (([1, 2] : List ℕ).map Nat.succ), if 2 = 1 then ([1, 2] : List ℕ).length else 0) :=
  ⟨by decide, convRun_builds_at_most_once Nat.succ [1, 2] 2 (by decide)⟩

/-- C9: `Flatten.checkInputs` is total (a plain `Bool`-valued function) and
returns `true` exactly for a single non-string input of rank ≥ 1 with the
configured axis in `[0, rank]`; equivalently it returns `false` exactly
when inputs are absent, the arity is not 1, the input is rank 0, the axis
is out of `[0, rank]`, or the input has string type. -/
theorem checkInputs_spec (axis : ℤ) (inputs : Option (List Tensor)) :
    Flatten.checkInputs axis inputs = true ↔
      ∃ t, inputs = some [t] ∧ 1 ≤ t.dims.length ∧ 0 ≤ axis ∧
        axis ≤ (t.dims.length : ℤ) ∧ t.type ≠ "string" := by
  cases inputs with
  | none => simp [Flatten.checkInputs]
  | some ins =>
    cases ins with
    | nil => simp [Flatten.checkInputs]
    | cons t rest =>
      cases rest with
      | cons t2 rest2 => simp [Flatten.checkInputs]
      | nil =>
        by_cases h1 : t.dims.length = 0 <;>
          by_cases h2 : axis < 0 ∨ ((t.dims.length : ℤ) < axis) <;>
            by_cases h3 : t.type = "string" <;>
              simp [Flatten.checkInputs, Flatten.checkInputTypes, h1, h2, h3] <;>
                omega

/-- C7: `calcIm2ColDims S K outShape c` is
`[outShape[0], outShape[2], outShape[3], ceil(S[1]*K[2]*K[3] / c)]` with a
true (rational) ceiling. -/
theorem calcIm2ColDims_spec (S K outShape : List ℕ) (c : ℕ) :
    WebGLConv.calcIm2ColDims S K outShape c =
      [outShape.getD 0 0, outShape.getD 2 0, outShape.getD 3 0,
       ⌈((S.getD 1 0 * K.getD 2 0 * K.getD 3 0 : ℕ) : ℚ) / (c : ℚ)⌉₊] := by
  unfold WebGLConv.calcIm2ColDims
  rw [ceil_div_nat]

/-- Helper: the padded row size is at least the raw row size. -/
theorem le_ceil_mul (R c : ℕ) (hc : 1 ≤ c) : R ≤ ((R + c - 1) / c) * c := by
  have hdm := Nat.div_add_mod (R + c - 1) c
  have hm : (R + c - 1) % c < c := Nat.mod_lt _ hc
  have hcomm : ((R + c - 1) / c) * c = c * ((R + c - 1) / c) := Nat.mul_comm _ _
  omega

/-- Helper: the repacking fold writes, for each filter index, the row
`slice ++ padding`, provided the incoming `rowbuf` has length `L` and its
tail beyond the first `R` entries is all zeros. -/
theorem prep_foldl_rows (kernel : List ℚ) (R L : ℕ) (hRL : R ≤ L) :
    ∀ (l : List ℕ) (acc : List ℚ × List ℚ),
      acc.1.length = L → acc.1.drop R = List.replicate (L - R) 0 →
      (∀ f ∈ l, f * R + R ≤ kernel.length) →
      (l.foldl (WebGLConv.prepStep kernel R) acc).2 =
        acc.2 ++ (l.map fun f =>
          (kernel.drop (f * R)).take R ++ List.replicate (L - R) 0).flatten := by
  intro l
  induction l with
  | nil =>
    intro acc _ _ _
    simp
  | cons f t ih =>
    intro acc hlen hdrop hmem
    have hflen : f * R + R ≤ kernel.length := hmem f (by simp)
    have hslice : ((kernel.drop (f * R)).take R).length = R := by
      rw [List.length_take, List.length_drop]
      omega
    have hstep : WebGLConv.prepStep kernel R acc f =
        ((kernel.drop (f * R)).take R ++ List.replicate (L - R) 0,
         acc.2 ++ ((kernel.drop (f * R)).take R ++ List.replicate (L - R) 0)) := by
      simp only [WebGLConv.prepStep]
      rw [hslice, hdrop]
    rw [List.foldl_cons, hstep,
      ih _ (by rw [List.length_append, hslice, List.length_replicate]; omega)
        (by rw [List.drop_left' hslice])
        (fun g hg => hmem g (by simp [hg]))]
    simp [List.append_assoc]

/-- Helper: indexing the concatenation of rows of a common length `L`. -/
theorem join_getD_const (L : ℕ) :
    ∀ (rows : List (List ℚ)) (f j : ℕ), (∀ r ∈ rows, r.length = L) →
      f < rows.length → j < L →
      rows.flatten.getD (f * L + j) 0 = (rows.getD f []).getD j 0 := by
  intro rows
  induction rows with
  | nil =>
    intro f j _ hf _
    simp at hf
  | cons r t ih =>
    intro f j hlen hf hj
    have hrlen : r.length = L := hlen r (by simp)
    cases f with
    | zero =>
      rw [List.flatten_cons, Nat.zero_mul, Nat.zero_add,
        List.getD_append _ _ _ _ (by omega), List.getD_cons_zero]
    | succ g =>
      have hidx : (g + 1) * L + j = r.length + (g * L + j) := by
        rw [hrlen]
        ring
      rw [List.flatten_cons, hidx, List.getD_append_right _ _ _ _ (by omega),
        Nat.add_sub_cancel_left, List.getD_cons_succ]
      exact ih g j (fun s hs => hlen s (by simp [hs])) (by simpa using hf) hj

/-- Helper: the length of a concatenation of rows of a common length. -/
theorem join_length_const (L : ℕ) :
    ∀ rows : List (List ℚ), (∀ r ∈ rows, r.length = L) →
      rows.flatten.length = rows.length * L := by
  intro rows
  induction rows with
  | nil => intro _; simp
  | cons r t ih =>
    intro hlen
    rw [List.flatten_cons, List.length_append, ih (fun s hs => hlen s (by simp [hs])),
      hlen r (by simp), List.length_cons]
    ring

/-- Helper: cutting a buffer of length `n * R` into `n` consecutive rows of
length `R` and concatenating them gives the buffer back. -/
theorem join_slices (R : ℕ) :
    ∀ (n : ℕ) (ks : List ℚ), ks.length = n * R →
      ((List.range n).map fun f => (ks.drop (f * R)).take R).flatten = ks := by
  intro n
  induction n with
  | zero =>
    intro ks hlen
    rw [Nat.zero_mul] at hlen
    have : ks = [] := List.length_eq_zero.mp hlen
    subst this
    simp
  | succ m ih =>
    intro ks hlen
    have hsm : (m + 1) * R = m * R + R := Nat.succ_mul m R
    rw [List.range_succ_eq_map]
    simp only [List.map_cons, List.map_map, List.flatten_cons, Nat.zero_mul, List.drop_zero]
    have htail : (List.range m).map ((fun f => (ks.drop (f * R)).take R) ∘ Nat.succ) =
        (List.range m).map fun g => ((ks.drop R).drop (g * R)).take R := by
      apply List.map_congr_left
      intro g _
      simp only [Function.comp_apply]
      rw [List.drop_drop]
      congr 2
      rw [Nat.succ_mul, Nat.add_comm]
    rw [htail, ih (ks.drop R) (by rw [List.length_drop]; omega)]
    exact List.take_append_drop R ks

/-- Helper: outside the early-return branch, the repacked buffer is the
concatenation, over the filters, of the filter's row followed by its zero
padding. -/
theorem prep_data_eq (s0 s1 s2 s3 group channels : ℕ) (kernel : List ℚ)
    (hch : 1 ≤ channels) (hlen : kernel.length = s0 * (s1 * s2 * s3))
    (hcond : ¬(group = 1 ∧ (channels = 1 ∨ (s2 * s3) % channels = 0))) :
    (WebGLConv.prepKernelForDotProduct [s0, s1, s2, s3] group channels kernel).data =
      ((List.range s0).map fun f =>
        (kernel.drop (f * (s1 * s2 * s3))).take (s1 * s2 * s3) ++
          List.replicate
            ((s1 * s2 * s3 + channels - 1) / channels * channels - s1 * s2 * s3) 0).flatten := by
  unfold WebGLConv.prepKernelForDotProduct
  simp only [List.getD_cons_zero, List.getD_cons_succ]
  rw [if_neg hcond]
  have hRL : s1 * s2 * s3 ≤ (s1 * s2 * s3 + channels - 1) / channels * channels :=
    le_ceil_mul _ _ hch
  rw [prep_foldl_rows kernel (s1 * s2 * s3)
    ((s1 * s2 * s3 + channels - 1) / channels * channels) hRL (List.range s0)
    (List.replicate ((s1 * s2 * s3 + channels - 1) / channels * channels) 0, [])
    (by simp) (by simp) ?side]
  · simp
  case side =>
    intro f hf
    rw [hlen]
    have hfs : f + 1 ≤ s0 := List.mem_range.mp hf
    have hmul := Nat.mul_le_mul_right (s1 * s2 * s3) hfs
    have hsm : (f + 1) * (s1 * s2 * s3) = f * (s1 * s2 * s3) + s1 * s2 * s3 :=
      Nat.succ_mul f (s1 * s2 * s3)
    omega

/-- Helper: each row written by the repacking loop has the padded length. -/
theorem prep_rows_length (s0 s1 s2 s3 channels : ℕ) (kernel : List ℚ)
    (hlen : kernel.length = s0 * (s1 * s2 * s3))
    (hRL : s1 * s2 * s3 ≤ (s1 * s2 * s3 + channels - 1) / channels * channels) :
    ∀ r ∈ (List.range s0).map fun f =>
        (kernel.drop (f * (s1 * s2 * s3))).take (s1 * s2 * s3) ++
          List.replicate
            ((s1 * s2 * s3 + channels - 1) / channels * channels - s1 * s2 * s3) 0,
      r.length = (s1 * s2 * s3 + channels - 1) / channels * channels := by
  intro r hr
  obtain ⟨f, hf, rfl⟩ := List.mem_map.mp hr
  have hfs : f + 1 ≤ s0 := List.mem_range.mp hf
  have hmul := Nat.mul_le_mul_right (s1 * s2 * s3) hfs
  have hsm : (f + 1) * (s1 * s2 * s3) = f * (s1 * s2 * s3) + s1 * s2 * s3 :=
    Nat.succ_mul f (s1 * s2 * s3)
  rw [List.length_append, List.length_take, List.length_drop, List.length_replicate, hlen]
  omega

/-- C3: `prepKernelForDotProduct` returns its input buffer itself exactly
when `group == 1` and (`channels == 1` or `(shape[2]*shape[3]) % channels
== 0`); otherwise it returns a fresh buffer of length
`shape[0] * ceil(shape[1]*shape[2]*shape[3] / channels) * channels` in
which the `oldRowSize` elements of each filter `f` appear unshifted at
positions `f*newRowSize .. f*newRowSize + oldRowSize - 1`. -/
theorem prepKernelForDotProduct_spec (s0 s1 s2 s3 group channels : ℕ) (kernel : List ℚ)
    (hch : 1 ≤ channels) (hlen : kernel.length = s0 * (s1 * s2 * s3)) :
    ((WebGLConv.prepKernelForDotProduct [s0, s1, s2, s3] group channels kernel).isInput =
        true ↔ (group = 1 ∧ (channels = 1 ∨ (s2 * s3) % channels = 0))) ∧
    ((WebGLConv.prepKernelForDotProduct [s0, s1, s2, s3] group channels kernel).isInput =
        false →
      (WebGLConv.prepKernelForDotProduct [s0, s1, s2, s3] group channels kernel).data.length =
        s0 * (⌈((s1 * s2 * s3 : ℕ) : ℚ) / (channels : ℚ)⌉₊ * channels) ∧
      ∀ f j, f < s0 → j < s1 * s2 * s3 →
        (WebGLConv.prepKernelForDotProduct
            [s0, s1, s2, s3] group channels kernel).data.getD
            (f * (⌈((s1 * s2 * s3 : ℕ) : ℚ) / (channels : ℚ)⌉₊ * channels) + j) 0 =
          kernel.getD (f * (s1 * s2 * s3) + j) 0) := by
  rw [ceil_div_nat]
  by_cases hcond : group = 1 ∧ (channels = 1 ∨ (s2 * s3) % channels = 0)
  · constructor
    · unfold WebGLConv.prepKernelForDotProduct
      simp only [List.getD_cons_zero, List.getD_cons_succ]
      rw [if_pos hcond]
      simp [hcond]
    · unfold WebGLConv.prepKernelForDotProduct
      simp only [List.getD_cons_zero, List.getD_cons_succ]
      rw [if_pos hcond]
      intro h
      simp at h
  · have hRL : s1 * s2 * s3 ≤ (s1 * s2 * s3 + channels - 1) / channels * channels :=
      le_ceil_mul _ _ hch
    have hdata := prep_data_eq s0 s1 s2 s3 group channels kernel hch hlen hcond
    have hrows := prep_rows_length s0 s1 s2 s3 channels kernel hlen hRL
    constructor
    · unfold WebGLConv.prepKernelForDotProduct
      simp only [List.getD_cons_zero, List.getD_cons_succ]
      rw [if_neg hcond]
      simp [hcond]
    · intro _
      constructor
      · rw [hdata, join_length_const _ _ hrows]
        simp
      · intro f j hf hj
        have hfs : f + 1 ≤ s0 := hf
        have hmul := Nat.mul_le_mul_right (s1 * s2 * s3) hfs
        have hsm : (f + 1) * (s1 * s2 * s3) = f * (s1 * s2 * s3) + s1 * s2 * s3 :=
          Nat.succ_mul f (s1 * s2 * s3)
        rw [hdata, join_getD_const _ _ f j hrows (by simp [hf]) (by omega)]
        have hrow : (((List.range s0).map fun f =>
            (kernel.drop (f * (s1 * s2 * s3))).take (s1 * s2 * s3) ++
              List.replicate
                ((s1 * s2 * s3 + channels - 1) / channels * channels - s1 * s2 * s3) 0).getD
            f []) =
            (kernel.drop (f * (s1 * s2 * s3))).take (s1 * s2 * s3) ++
              List.replicate
                ((s1 * s2 * s3 + channels - 1) / channels * channels - s1 * s2 * s3) 0 := by
          rw [List.getD_eq_getElem _ _ (by simpa using hf)]
          simp
        rw [hrow]
        have hslice : ((kernel.drop (f * (s1 * s2 * s3))).take (s1 * s2 * s3)).length =
            s1 * s2 * s3 := by
          rw [List.length_take, List.length_drop, hlen]
          omega
        rw [List.getD_append _ _ _ _ (by omega)]
        have hjlt : j < ((kernel.drop (f * (s1 * s2 * s3))).take (s1 * s2 * s3)).length := by
          omega
        rw [List.getD_eq_getElem _ _ hjlt,
          List.getD_eq_getElem _ _ (by rw [hlen]; omega)]
        simp

/-- Witness for C3: shape `2×1×1×3`, `group = 2`, `channels = 4`,
kernel data `[1,2,3,4,5,6]`. -/
theorem prepKernelForDotProduct_spec_witness :
    1 ≤ 4 ∧ ([(1 : ℚ), 2, 3, 4, 5, 6] : List ℚ).length = 2 * (1 * 1 * 3) ∧
    (((WebGLConv.prepKernelForDotProduct [2, 1, 1, 3] 2 4 [1, 2, 3, 4, 5, 6]).isInput =
        true ↔ ((2 : ℕ) = 1 ∧ ((4 : ℕ) = 1 ∨ (1 * 3) % 4 = 0))) ∧
      ((WebGLConv.prepKernelForDotProduct [2, 1, 1, 3] 2 4 [1, 2, 3, 4, 5, 6]).isInput =
          false →
        (WebGLConv.prepKernelForDotProduct
            [2, 1, 1, 3] 2 4 [1, 2, 3, 4, 5, 6]).data.length =
          2 * (⌈((1 * 1 * 3 : ℕ) : ℚ) / (4 : ℚ)⌉₊ * 4) ∧
        ∀ f j, f < 2 → j < 1 * 1 * 3 →
          (WebGLConv.prepKernelForDotProduct
              [2, 1, 1, 3] 2 4 [1, 2, 3, 4, 5, 6]).data.getD
              (f * (⌈((1 * 1 * 3 : ℕ) : ℚ) / (4 : ℚ)⌉₊ * 4) + j) 0 =
            ([(1 : ℚ), 2, 3, 4, 5, 6] : List ℚ).getD (f * (1 * 1 * 3) + j) 0)) :=
  ⟨by decide, by decide,
    prepKernelForDotProduct_spec 2 1 1 3 2 4 [1, 2, 3, 4, 5, 6] (by decide) (by decide)⟩

/-- Counterexample to C4: for shape `[1,2,1,2]`, `group = 1`,
`channels = 4`, the per-filter row size `2*1*2 = 4` is a multiple of the
channel count, yet the guard actually tested by the code —
`(shape[2]*shape[3]) % channels == 0`, i.e. `(1*2) % 4 == 0` — fails, so
the function allocates and returns a fresh buffer instead of its input. -/
theorem prep_rowAligned_counterexample :
    ((2 : ℕ) * 1 * 2) % 4 = 0 ∧
    (WebGLConv.prepKernelForDotProduct [1, 2, 1, 2] 1 4 [1, 2, 3, 4]).isInput = false := by
  constructor
  · decide
  · decide

/-- C4 (amended): whenever `group == 1` and the per-filter row size
`shape[1]*shape[2]*shape[3]` is a multiple of `channels`, the data the
function returns equals the input kernel data element-for-element (the
padded row size equals the raw row size, so the repack is a pure copy);
the returned buffer is the input buffer itself only when the code's actual
guard `channels == 1 ∨ (shape[2]*shape[3]) % channels == 0` also holds. -/
theorem prep_rowAligned_content (s0 s1 s2 s3 channels : ℕ) (kernel : List ℚ)
    (hch : 1 ≤ channels) (hlen : kernel.length = s0 * (s1 * s2 * s3))
    (hrow : (s1 * s2 * s3) % channels = 0) :
    (WebGLConv.prepKernelForDotProduct [s0, s1, s2, s3] 1 channels kernel).data = kernel := by
  by_cases hcond : (1 : ℕ) = 1 ∧ (channels = 1 ∨ (s2 * s3) % channels = 0)
  · unfold WebGLConv.prepKernelForDotProduct
    simp only [List.getD_cons_zero, List.getD_cons_succ]
    rw [if_pos (show True ∧ (channels = 1 ∨ s2 * s3 % channels = 0) from ⟨trivial, hcond.2⟩)]
  · rw [prep_data_eq s0 s1 s2 s3 1 channels kernel hch hlen hcond]
    obtain ⟨q, hq⟩ := Nat.dvd_of_mod_eq_zero hrow
    have hLR : (s1 * s2 * s3 + channels - 1) / channels * channels = s1 * s2 * s3 := by
      rw [hq]
      have he : channels * q + channels - 1 = (channels - 1) + channels * q := by omega
      rw [he, Nat.add_mul_div_left _ _ hch, Nat.div_eq_of_lt (by omega), Nat.zero_add,
        Nat.mul_comm]
    have hz : (s1 * s2 * s3 + channels - 1) / channels * channels - s1 * s2 * s3 = 0 := by
      omega
    rw [hz]
    simp only [List.replicate_zero, List.append_nil]
    exact join_slices (s1 * s2 * s3) s0 kernel hlen

/-- Witness for the amended C4: shape `[1,2,1,2]`, `channels = 4`,
kernel `[1,2,3,4]`; the repacked data equals the input data. -/
theorem prep_rowAligned_content_witness :
    1 ≤ 4 ∧ ([(1 : ℚ), 2, 3, 4] : List ℚ).length = 1 * (2 * 1 * 2) ∧
      ((2 : ℕ) * 1 * 2) % 4 = 0 ∧
    (WebGLConv.prepKernelForDotProduct [1, 2, 1, 2] 1 4 [1, 2, 3, 4]).data = [1, 2, 3, 4] :=
  ⟨by decide, by decide, by decide,
    prep_rowAligned_content 1 2 1 2 4 [1, 2, 3, 4] (by decide) (by decide) (by decide)⟩

/-- C10: whenever `prepKernelForDotProduct` repacks (does not return its
input), the padding it introduces is exactly zero: within each filter's
row, every position at or beyond `oldRowSize` and below `newRowSize` holds
`0.0`. -/
theorem prep_padding_zero (s0 s1 s2 s3 group channels : ℕ) (kernel : List ℚ)
    (hch : 1 ≤ channels) (hlen : kernel.length = s0 * (s1 * s2 * s3))
    (hrepack : (WebGLConv.prepKernelForDotProduct [s0, s1, s2, s3] group channels
        kernel).isInput = false)
    (f j : ℕ) (hf : f < s0) (hjl : s1 * s2 * s3 ≤ j)
    (hju : j < ⌈((s1 * s2 * s3 : ℕ) : ℚ) / (channels : ℚ)⌉₊ * channels) :
    (WebGLConv.prepKernelForDotProduct [s0, s1, s2, s3] group channels kernel).data.getD
      (f * (⌈((s1 * s2 * s3 : ℕ) : ℚ) / (channels : ℚ)⌉₊ * channels) + j) 0 = 0 := by
  rw [ceil_div_nat] at hju ⊢
  have hcond : ¬(group = 1 ∧ (channels = 1 ∨ (s2 * s3) % channels = 0)) := by
    intro hc
    unfold WebGLConv.prepKernelForDotProduct at hrepack
    simp only [List.getD_cons_zero, List.getD_cons_succ] at hrepack
    rw [if_pos hc] at hrepack
    simp at hrepack
  have hRL := le_ceil_mul (s1 * s2 * s3) channels hch
  rw [prep_data_eq s0 s1 s2 s3 group channels kernel hch hlen hcond,
    join_getD_const _ _ f j (prep_rows_length s0 s1 s2 s3 channels kernel hlen hRL)
      (by simp [hf]) hju]
  have hrow : (((List.range s0).map fun f =>
      (kernel.drop (f * (s1 * s2 * s3))).take (s1 * s2 * s3) ++
        List.replicate
          ((s1 * s2 * s3 + channels - 1) / channels * channels - s1 * s2 * s3) 0).getD
      f []) =
      (kernel.drop (f * (s1 * s2 * s3))).take (s1 * s2 * s3) ++
        List.replicate
          ((s1 * s2 * s3 + channels - 1) / channels * channels - s1 * s2 * s3) 0 := by
    rw [List.getD_eq_getElem _ _ (by simpa using hf)]
    simp
  have hfs : f + 1 ≤ s0 := hf
  have hmul := Nat.mul_le_mul_right (s1 * s2 * s3) hfs
  have hsm : (f + 1) * (s1 * s2 * s3) = f * (s1 * s2 * s3) + s1 * s2 * s3 :=
    Nat.succ_mul f (s1 * s2 * s3)
  have hslice : ((kernel.drop (f * (s1 * s2 * s3))).take (s1 * s2 * s3)).length =
      s1 * s2 * s3 := by
    rw [List.length_take, List.length_drop, hlen]
    omega
  rw [hrow, List.getD_append_right _ _ _ _ (by omega)]
  have hz : ∀ n m : ℕ, (List.replicate n (0 : ℚ)).getD m 0 = 0 := by
    intro n m
    rcases Nat.lt_or_ge m n with h | h
    · rw [List.getD_eq_getElem _ _ (by simpa using h)]
      simp
    · exact List.getD_eq_default _ _ (by simpa using h)
  exact hz _ _

/-- Witness for C10: shape `[1,1,1,3]`, `group = 2`, `channels = 4`,
kernel `[1,2,3]`; position 3 of the single padded row (row size 3 padded to
4) holds zero. -/
theorem prep_padding_zero_witness :
    1 ≤ 4 ∧ ([(1 : ℚ), 2, 3] : List ℚ).length = 1 * (1 * 1 * 3) ∧
    (WebGLConv.prepKernelForDotProduct [1, 1, 1, 3] 2 4 [1, 2, 3]).isInput = false ∧
    0 < 1 ∧ 1 * 1 * 3 ≤ 3 ∧ 3 < ⌈((1 * 1 * 3 : ℕ) : ℚ) / ((4 : ℕ) : ℚ)⌉₊ * 4 ∧
    (WebGLConv.prepKernelForDotProduct [1, 1, 1, 3] 2 4 [1, 2, 3]).data.getD
      (0 * (⌈((1 * 1 * 3 : ℕ) : ℚ) / ((4 : ℕ) : ℚ)⌉₊ * 4) + 3) 0 = 0 :=
  ⟨by decide, by decide, by decide, by decide, by decide,
    by rw [ceil_div_nat]; decide,
    prep_padding_zero 1 1 1 3 2 4 [1, 2, 3] (by decide) (by decide) (by decide) 0 3
      (by decide) (by decide) (by rw [ceil_div_nat]; decide)⟩

/-- C5: each channel of each Pass-1 output texel is the input element at
the coordinate derived from stride, dilation and pad when that coordinate
lies inside `[0,XH) × [0,XW)` and the linear patch index is below
`XC*KH*KW`, and exactly 0 otherwise; in particular the computation never
yields the out-of-range marker, i.e. the input tensor is never sampled at
an out-of-range coordinate. -/
theorem im2colChannel_spec (P : WebGLConv.Im2ColParams) (X : ℕ → ℕ → ℕ → ℕ → ℚ)
    (b outH outW patchGroup i : ℕ) :
    WebGLConv.im2colChannel P X b outH outW patchGroup i =
      some
        (if patchGroup * 4 + i < P.XC * (P.KH * P.KW) ∧
            0 ≤ (outH : ℤ) * (P.strideH : ℤ) - (P.padH : ℤ) +
              (((patchGroup * 4 + i) / P.KW % P.KH : ℕ) : ℤ) * (P.dilationH : ℤ) ∧
            (outH : ℤ) * (P.strideH : ℤ) - (P.padH : ℤ) +
              (((patchGroup * 4 + i) / P.KW % P.KH : ℕ) : ℤ) * (P.dilationH : ℤ) <
                (P.XH : ℤ) ∧
            0 ≤ (outW : ℤ) * (P.strideW : ℤ) - (P.padW : ℤ) +
              (((patchGroup * 4 + i) % P.KW : ℕ) : ℤ) * (P.dilationW : ℤ) ∧
            (outW : ℤ) * (P.strideW : ℤ) - (P.padW : ℤ) +
              (((patchGroup * 4 + i) % P.KW : ℕ) : ℤ) * (P.dilationW : ℤ) < (P.XW : ℤ)
        then
          X b ((patchGroup * 4 + i) / (P.KH * P.KW))
            ((outH : ℤ) * (P.strideH : ℤ) - (P.padH : ℤ) +
              (((patchGroup * 4 + i) / P.KW % P.KH : ℕ) : ℤ) * (P.dilationH : ℤ)).toNat
            ((outW : ℤ) * (P.strideW : ℤ) - (P.padW : ℤ) +
              (((patchGroup * 4 + i) % P.KW : ℕ) : ℤ) * (P.dilationW : ℤ)).toNat
        else 0) := by
  simp only [WebGLConv.im2colChannel, WebGLConv.texFetchX]
  set patch := patchGroup * 4 + i with hpatch
  by_cases hp : patch < P.XC * (P.KH * P.KW)
  · have hKpos : 0 < P.KH * P.KW := by
      rcases Nat.eq_zero_or_pos (P.KH * P.KW) with h0 | h0
      · rw [h0, Nat.mul_zero] at hp
        omega
      · exact h0
    have hdm := Nat.div_add_mod patch (P.KH * P.KW)
    have hcm : patch / (P.KH * P.KW) * (P.KH * P.KW) =
        (P.KH * P.KW) * (patch / (P.KH * P.KW)) := Nat.mul_comm _ _
    have hmod : patch - patch / (P.KH * P.KW) * (P.KH * P.KW) = patch % (P.KH * P.KW) := by
      omega
    have hmm : patch % (P.KH * P.KW) % P.KW = patch % P.KW :=
      Nat.mod_mod_of_dvd patch (dvd_mul_left P.KW P.KH)
    have hdm2 := Nat.div_add_mod (patch % (P.KH * P.KW)) P.KW
    have hcm2 : patch % (P.KH * P.KW) / P.KW * P.KW =
        P.KW * (patch % (P.KH * P.KW) / P.KW) := Nat.mul_comm _ _
    have hW : patch - patch / (P.KH * P.KW) * (P.KH * P.KW) -
        (patch - patch / (P.KH * P.KW) * (P.KH * P.KW)) / P.KW * P.KW = patch % P.KW := by
      rw [hmod]
      omega
    have hH : (patch - patch / (P.KH * P.KW) * (P.KH * P.KW)) / P.KW =
        patch / P.KW % P.KH := by
      rw [hmod, Nat.mul_comm P.KH P.KW, Nat.mod_mul_right_div_self]
    rw [if_pos hp, hW, hH]
    by_cases hb :
        0 ≤ (outH : ℤ) * (P.strideH : ℤ) - (P.padH : ℤ) +
            ((patch / P.KW % P.KH : ℕ) : ℤ) * (P.dilationH : ℤ) ∧
          (outH : ℤ) * (P.strideH : ℤ) - (P.padH : ℤ) +
            ((patch / P.KW % P.KH : ℕ) : ℤ) * (P.dilationH : ℤ) < (P.XH : ℤ) ∧
          0 ≤ (outW : ℤ) * (P.strideW : ℤ) - (P.padW : ℤ) +
            ((patch % P.KW : ℕ) : ℤ) * (P.dilationW : ℤ) ∧
          (outW : ℤ) * (P.strideW : ℤ) - (P.padW : ℤ) +
            ((patch % P.KW : ℕ) : ℤ) * (P.dilationW : ℤ) < (P.XW : ℤ)
    · have hc : patch / (P.KH * P.KW) < P.XC := (Nat.div_lt_iff_lt_mul hKpos).mpr hp
      rw [if_pos hb,
        if_pos ⟨Int.natCast_nonneg _, by exact_mod_cast hc, hb.1, hb.2.1, hb.2.2.1, hb.2.2.2⟩,
        if_pos ⟨hp, hb⟩]
      rw [Int.toNat_natCast]
    · rw [if_neg hb, if_neg fun hcon => hb hcon.2]
  · rw [if_neg hp, if_neg fun hcon => hp hcon.1]

end OnnxJs
